import Mathlib

/-!
Verification development for the Live State Derivation Engine of the
live-sports-momentum repository.  The definitions below are a shallow
embedding of `src/app/db/redis-models/live.ts` and of the GET handler in
`src/app/api/analyze-video/route.ts`.  Strings are modelled as `List Char`,
JS numbers as `ℚ`, Redis and Mongo as explicit state records, and the JS
regular expressions used by `extractScore` / `isScoreboardCandidate` as
hand-written leftmost-greedy backtracking matchers.
-/

namespace Live

/- ===================== characters and character classes ===================== -/

/-- JS regex class \d, i.e. the characters 0-9 (source: the `\d` occurrences in
`extractScore` and `isScoreboardCandidate`, live.ts lines 37-47 and 61). -/
def isDigitC (c : Char) : Bool :=
  decide ('0' ≤ c) && decide (c ≤ '9')

/-- JS regex class \s restricted to the ASCII whitespace characters (space, tab,
newline, carriage return, vertical tab, form feed).  Used by the whitespace
normalisation `replace(/\s+/g, " ")`, by `trim()` and by `\s*` in the
separator pattern of `extractScore` (live.ts lines 32-34 and 43). -/
def isSpaceJS (c : Char) : Bool :=
  (c == ' ') || (c == '\t') || (c == '\n') || (c == '\x0d') ||
  (c == '\x0b') || (c == '\x0c')

/-- Case-insensitive character comparison, for the /i flag on the team patterns. -/
def charCI (a b : Char) : Bool :=
  a.toLower == b.toLower

/- ===================== whitespace normalisation ===================== -/

/-- Model of `String(text).replace(/\s+/g, " ")`: every maximal run of
whitespace is replaced by a single space.  The boolean flag records whether the
previous character was whitespace. -/
def collapseGo : Bool → List Char → List Char
  | _, [] => []
  | prevSp, c :: rest =>
    if isSpaceJS c then
      if prevSp then collapseGo true rest else ' ' :: collapseGo true rest
    else
      c :: collapseGo false rest

/-- Model of `.replace(/\s+/g, " ")` on a whole string. -/
def collapseWS (s : List Char) : List Char :=
  collapseGo false s

/-- Drop trailing whitespace (the right half of `String.trim`). -/
def dropTrailingSpaces (s : List Char) : List Char :=
  (s.reverse.dropWhile isSpaceJS).reverse

/-- Model of `String.trim()`: strip leading and trailing whitespace. -/
def trimJS (s : List Char) : List Char :=
  dropTrailingSpaces (s.dropWhile isSpaceJS)

/-- The whitespace normalisation performed at the top of `extractScore`
(live.ts lines 32-34): collapse whitespace runs, then trim. -/
def normalizeWS (s : List Char) : List Char :=
  trimJS (collapseWS s)

/- ===================== team tokens ===================== -/

/-- Match one token of the team alternation (ARG|ESP|POR), case-insensitively,
as a prefix of `s`; return the rest of the string on success. -/
def teamTok (s : List Char) : Option (List Char) :=
  match s with
  | a :: b :: c :: rest =>
    if (charCI a 'A' && charCI b 'R' && charCI c 'G') ||
       (charCI a 'E' && charCI b 'S' && charCI c 'P') ||
       (charCI a 'P' && charCI b 'O' && charCI c 'R') then
      some rest
    else none
  | _ => none

/-- Substring test for /(ARG|ESP|POR)/i, used by `isScoreboardCandidate`
(live.ts line 60). -/
def hasTeam : List Char → Bool
  | [] => false
  | c :: rest => (teamTok (c :: rest)).isSome || hasTeam rest

/- ===================== backtracking regex pieces ===================== -/

/-- Greedy `\D*` (longest first, with backtracking) in continuation-passing
style: try every split point, longest prefix of non-digits first, exactly as a
JS backtracking engine does. -/
def dStarThen (s : List Char) (k : List Char → Option α) : Option α :=
  match s with
  | [] => k []
  | c :: rest =>
    if isDigitC c then k (c :: rest)
    else (dStarThen rest k) <|> k (c :: rest)

/-- Greedy `\D+`: one non-digit followed by greedy `\D*`. -/
def dPlusThen (s : List Char) (k : List Char → Option α) : Option α :=
  match s with
  | [] => none
  | c :: rest =>
    if isDigitC c then none
    else dStarThen rest k

/-- Greedy `\s*` with backtracking, continuation-passing style. -/
def sStarThen (s : List Char) (k : List Char → Option α) : Option α :=
  match s with
  | [] => k []
  | c :: rest =>
    if isSpaceJS c then (sStarThen rest k) <|> k (c :: rest)
    else k (c :: rest)

/-- Greedy capture group `(\d{1,2})`: prefer two digits, backtrack to one.  The
continuation receives the captured digits and the rest of the input. -/
def digits12 (s : List Char) (k : List Char → List Char → Option α) : Option α :=
  match s with
  | [] => none
  | c :: rest =>
    if isDigitC c then
      match rest with
      | d :: rest2 =>
        if isDigitC d then (k [c, d] rest2) <|> k [c] rest
        else k [c] rest
      | [] => k [c] []
    else none

/-- Try a matcher at every start position, leftmost position first — the
semantics of an unanchored `String.match`. -/
def firstMatchFrom (f : List Char → Option α) : List Char → Option α
  | [] => f []
  | c :: rest => (f (c :: rest)) <|> firstMatchFrom f rest

/- ===================== the three patterns of extractScore ===================== -/

/-- Attempt of the team-anchored pattern
`(ARG|ESP|POR)\D*(\d{1,2})\D+(\d{1,2})\D*(ARG|ESP|POR)` (with /i) at one start
position; yields the two captured digit groups (live.ts lines 37-39). -/
def teamMatchAt (s : List Char) : Option (List Char × List Char) :=
  match teamTok s with
  | none => none
  | some r1 =>
    dStarThen r1 (fun r2 =>
      digits12 r2 (fun g2 r3 =>
        dPlusThen r3 (fun r4 =>
          digits12 r4 (fun g3 r5 =>
            dStarThen r5 (fun r6 =>
              (teamTok r6).map (fun _ => (g2, g3)))))))

/-- Unanchored match of the team pattern (leftmost match wins). -/
def teamMatch (s : List Char) : Option (List Char × List Char) :=
  firstMatchFrom teamMatchAt s

/-- Attempt of the separator pattern `(\d{1,2})\s*[- ]\s*(\d{1,2})` at one
start position (live.ts line 43). -/
def dashMatchAt (s : List Char) : Option (List Char × List Char) :=
  digits12 s (fun g1 r1 =>
    sStarThen r1 (fun r2 =>
      match r2 with
      | [] => none
      | c :: r3 =>
        if c == '-' || c == ' ' then
          sStarThen r3 (fun r4 =>
            digits12 r4 (fun g2 _ => some (g1, g2)))
        else none))

/-- Unanchored match of the separator pattern. -/
def dashMatch (s : List Char) : Option (List Char × List Char) :=
  firstMatchFrom dashMatchAt s

/-- Model of the global match `s.match(/\d{1,2}/g)`: scan left to right, at
each digit take greedily up to two digits, continue after the match. -/
def globalDigits12 : List Char → List (List Char)
  | [] => []
  | c :: rest =>
    if isDigitC c then
      match rest with
      | d :: rest2 =>
        if isDigitC d then [c, d] :: globalDigits12 rest2
        else [c] :: globalDigits12 (d :: rest2)
      | [] => [[c]]
    else globalDigits12 rest

/-- True when the string starts with a digit. -/
def headIsDigit : List Char → Bool
  | [] => false
  | d :: _ => isDigitC d

/-- Prepend a character to the first run of a run list (opening a new run when
the list is empty). -/
def prependToFirst (c : Char) : List (List Char) → List (List Char)
  | [] => [[c]]
  | r :: rs => (c :: r) :: rs

/-- Model of the global match `s.match(/\d+/g)`: the maximal digit runs of the
string, in order (used by `isScoreboardCandidate`, live.ts line 61).  Written
by structural recursion (a digit is prepended to the run it opens) so that it
evaluates by kernel reduction. -/
def digitRuns : List Char → List (List Char)
  | [] => []
  | c :: rest =>
    if isDigitC c then
      if headIsDigit rest then prependToFirst c (digitRuns rest)
      else [c] :: digitRuns rest
    else digitRuns rest

/- ===================== extractScore and isScoreboardCandidate ===================== -/

/-- Shallow embedding of `extractScore` (live.ts lines 31-51): normalise
whitespace, then try the team-anchored pattern, the separator pattern, and
finally the first two 1-2 digit global matches; return null (`none`) when
fewer than two numbers are found. -/
def extractScore (text : List Char) : Option (List Char) :=
  let s := normalizeWS text
  match teamMatch s with
  | some (g2, g3) => some (g2 ++ '-' :: g3)
  | none =>
    match dashMatch s with
    | some (g1, g2) => some (g1 ++ '-' :: g2)
    | none =>
      match globalDigits12 s with
      | n1 :: n2 :: _ => some (n1 ++ '-' :: n2)
      | _ => none

/-- Shallow embedding of `isScoreboardCandidate` (live.ts lines 58-63): the raw
text must contain a team token and at least two maximal digit runs. -/
def isScoreboardCandidate (text : List Char) : Bool :=
  hasTeam text && decide ((digitRuns text).length ≥ 2)

/- ===================== annotation events and the time-window predicate ===================== -/

/-- A durable annotation row as the engine sees it.  Every field may be absent:
the code reads them defensively (`e?.start ?? e?.timestamp ?? 0`,
`Number(l?.confidence ?? 0)`, `String(l?.name ?? "")`).  Object rows use
name/confidence/start/end, OCR rows use text/confidence/start/end/timestamp,
classification labels use name/confidence only. -/
structure Ev where
  name_ : Option String
  text_ : Option String
  confidence_ : Option ℚ
  start_ : Option ℚ
  timestamp_ : Option ℚ
  end_ : Option ℚ
deriving DecidableEq

/-- Shallow embedding of `getRange` (live.ts lines 14-18): start defaults to
timestamp and then 0; a missing end makes the event a point event. -/
def getRange (e : Ev) : ℚ × ℚ :=
  let start := (e.start_).getD ((e.timestamp_).getD 0)
  (start, (e.end_).getD start)

/-- Shallow embedding of `isInWindow` (live.ts lines 20-24). -/
def isInWindow (e : Ev) (t : ℚ) : Bool :=
  decide ((getRange e).1 ≤ t)
    && (decide ((getRange e).2 ≥ t) || decide ((getRange e).2 = (getRange e).1))

/-- The coalesced confidence `Number(e?.confidence ?? 0)`. -/
def confOf (e : Ev) : ℚ :=
  (e.confidence_).getD 0

/-- The coalesced text `String(e?.text ?? "")`. -/
def textOf (e : Ev) : String :=
  (e.text_).getD ""

/- ===================== a model of Array.prototype.sort ===================== -/

/-- Insert one element into a list, before the first element `b` with
`le a b`. -/
def insertLe (le : α → α → Bool) (a : α) : List α → List α
  | [] => [a]
  | b :: l => if le a b then a :: b :: l else b :: insertLe le a l

/-- Stable insertion sort.  This models `Array.prototype.sort(cmp)` (stable per
ECMAScript 2019) with the relation `le a b := cmp(a, b) <= 0` for a consistent
comparator `cmp`. -/
def sortByLe (le : α → α → Bool) : List α → List α
  | [] => []
  | a :: l => insertLe le a (sortByLe le l)

/- ===================== the snapshot builder core ===================== -/

/-- The scoreboard comparator of `buildLiveStateAtTime` (live.ts lines
113-122): descending start, then descending confidence, then descending end,
returned as the JS comparator value. -/
def ocrCmp (a b : Ev) : ℚ :=
  let ra := getRange a
  let rb := getRange b
  if rb.1 ≠ ra.1 then rb.1 - ra.1
  else if confOf b ≠ confOf a then confOf b - confOf a
  else rb.2 - ra.2

/-- The sort relation induced by `ocrCmp` (element `a` sorts no later than
`b` exactly when the comparator is non-positive). -/
def ocrLe (a b : Ev) : Bool :=
  decide (ocrCmp a b ≤ 0)

/-- The label comparator of live.ts lines 145-147 (descending confidence). -/
def labelLe (a b : Ev) : Bool :=
  decide (confOf b - confOf a ≤ 0)

/-- The cached snapshot hash (the fields written by `pipeline.hSet`, live.ts
lines 133-140).  Numeric fields are kept typed; the stringification
`String(t)` / `String(playerCount)` is injective so equality of these records
models byte equality of the stored hashes. -/
structure Snapshot where
  videoId : String
  t : Int
  playerCount : Nat
  scoreboard : String
  score : String
  lastUpdated : String
deriving DecidableEq

/-- The person filter of the player-count step (live.ts lines 94-99). -/
def personPred (t : ℚ) (o : Ev) : Bool :=
  (o.name_ == some "person")
    && decide (max 0 ((getRange o).2 - (getRange o).1) ≥ 2)
    && isInWindow o t

/-- The gated, time-filtered scoreboard candidates (live.ts lines 105-107). -/
def scoreboardCandidates (ocr : List Ev) (t : ℚ) : List Ev :=
  (ocr.filter (fun ev => isScoreboardCandidate (textOf ev).toList)).filter
    (fun ev => isInWindow ev t)

/-- `candidates.sort(cmp)[0]` (live.ts lines 113-122). -/
def chooseBest (cands : List Ev) : Option Ev :=
  (sortByLe ocrLe cands).head?

/-- The pure computation inside `buildLiveStateAtTime` (live.ts lines 93-155):
given the rows of the chosen analysis and the floored query time, produce the
snapshot hash together with the (member, score) pairs passed to `zAdd` for the
label key, in pipeline order.  `now` is the value of
`new Date().toISOString()`. -/
def buildSnapshot (videoId : String) (t : Int) (objects ocr labels : List Ev)
    (now : String) : Snapshot × List (String × ℚ) :=
  let peopleOnScene := objects.filter (personPred (t : ℚ))
  let playerCount := min peopleOnScene.length 14
  let best := chooseBest (scoreboardCandidates ocr (t : ℚ))
  let scoreboardText := match best with
    | some b => textOf b
    | none => ""
  let score := if scoreboardText = "" then ""
    else match extractScore scoreboardText.toList with
      | some cs => String.mk cs
      | none => ""
  let sortedLabels := sortByLe labelLe labels
  let zadds := (sortedLabels.take 5).map (fun l => ((l.name_).getD "", confOf l))
  ({ videoId := videoId, t := t, playerCount := playerCount,
     scoreboard := scoreboardText, score := score, lastUpdated := now }, zadds)

/- ===================== the Redis cache model ===================== -/

/-- Cache keys (live.ts lines 4-8). -/
def key (videoId : String) (t : Int) : String :=
  "live:video:" ++ videoId ++ ":t:" ++ toString t

def labelKey (videoId : String) (t : Int) : String :=
  "live:video:" ++ videoId ++ ":t:" ++ toString t ++ ":labels"

/-- Short TTL for the live timeline (live.ts line 10). -/
def TTL : Nat := 360

/-- Association-list lookup by key. -/
def alookup (l : List (String × α)) (k : String) : Option α :=
  (l.find? (fun p => p.1 == k)).map (fun p => p.2)

/-- Association-list update-or-append (the keys of a well-formed state are
distinct, so updating the first occurrence is updating the occurrence). -/
def aupdate : List (String × α) → String → α → List (String × α)
  | [], k, v => [(k, v)]
  | p :: l, k, v => if p.1 == k then (k, v) :: l else p :: aupdate l k v

/-- Remove a key from an association list. -/
def aremove (l : List (String × α)) (k : String) : List (String × α) :=
  l.filter (fun p => p.1 != k)

/-- A Redis state: hash keys (holding snapshot hashes), sorted-set keys, and
per-key TTLs.  A key absent from `hashes`/`zsets` is missing or expired. -/
structure Redis where
  hashes : List (String × Snapshot)
  zsets : List (String × List (String × ℚ))
  ttls : List (String × Nat)
deriving DecidableEq

def hget (r : Redis) (k : String) : Option Snapshot :=
  alookup r.hashes k

def zget (r : Redis) (k : String) : Option (List (String × ℚ)) :=
  alookup r.zsets k

def ttlOf (r : Redis) (k : String) : Option Nat :=
  alookup r.ttls k

/-- EXISTS, as used by EXPIRE (a no-op on a missing key). -/
def keyExists (r : Redis) (k : String) : Bool :=
  (hget r k).isSome || (zget r k).isSome

/-- ZADD on the member list of one sorted set: update the member score, or
append the member. -/
def zaddEntry (l : List (String × ℚ)) (m : String) (sc : ℚ) : List (String × ℚ) :=
  aupdate l m sc

/-- One queued command of the builder pipeline (live.ts lines 131-156).
`hsetAll` writes the full fixed field set of the snapshot hash; since the
engine always writes every field, HSET of this field set fully determines the
hash value. -/
inductive Cmd where
  | hsetAll : String → Snapshot → Cmd
  | expire : String → Nat → Cmd
  | del : String → Cmd
  | zadd : String → String → ℚ → Cmd
deriving DecidableEq

def applyCmd (r : Redis) : Cmd → Redis
  | .hsetAll k s => { r with hashes := aupdate r.hashes k s }
  | .expire k n => if keyExists r k then { r with ttls := aupdate r.ttls k n } else r
  | .del k =>
    { hashes := aremove r.hashes k, zsets := aremove r.zsets k,
      ttls := aremove r.ttls k }
  | .zadd k m sc =>
    { r with zsets := aupdate r.zsets k (zaddEntry ((zget r k).getD []) m sc) }

/-- MULTI/EXEC: the queued commands are applied as one indivisible batch (the
Redis transaction contract for `redis.multi()...exec()`), so the model exposes
no state between queued commands. -/
def exec (r : Redis) (batch : List Cmd) : Redis :=
  batch.foldl applyCmd r

/-- The exact command batch queued by `buildLiveStateAtTime` (live.ts lines
131-157): hSet of the snapshot hash, expire of the hash key, del of the label
key, one zAdd per ranked label, expire of the label key. -/
def buildBatch (videoId : String) (t : Int) (snap : Snapshot)
    (zadds : List (String × ℚ)) : List Cmd :=
  Cmd.hsetAll (key videoId t) snap
    :: Cmd.expire (key videoId t) TTL
    :: Cmd.del (labelKey videoId t)
    :: (zadds.map (fun p => Cmd.zadd (labelKey videoId t) p.1 p.2)
        ++ [Cmd.expire (labelKey videoId t) TTL])

/- ===================== the durable (Mongo) model ===================== -/

/-- One completed analysis grouping, with its related object / OCR / label
rows attached (they are fetched by `find({ analysisId })`, live.ts lines
87-91). -/
structure AnalysisDoc where
  docId : String
  videoId : String
  analyzedAt : ℚ
  objects : List Ev
  ocr : List Ev
  labels : List Ev
deriving DecidableEq

/-- The durable store: the ANALYSIS collection (with attached rows). -/
structure DurableData where
  analyses : List AnalysisDoc
deriving DecidableEq

/-- `find({ videoId }).sort({ analyzedAt: -1 }).limit(1)` (live.ts lines
75-80). -/
def latestAnalysis (d : DurableData) (videoId : String) : Option AnalysisDoc :=
  (sortByLe (fun a b => decide (b.analyzedAt ≤ a.analyzedAt))
    (d.analyses.filter (fun a => a.videoId == videoId))).head?

/- ===================== buildLiveStateAtTime and getLiveStateAtTime ===================== -/

/-- Shallow embedding of `buildLiveStateAtTime` (live.ts lines 68-160).  The
durable read is an `Except` so a failed read can be modelled; on failure the
error propagates before any cache write.  `Number(timeSec) || 0` is the
identity on rationals, so the floored time is `⌊timeSec⌋`.  The result pairs
the returned `{ score, scoreboard }` value with the cache state after the
atomic batch. -/
def buildLiveStateAtTime (db : Except String DurableData) (r : Redis)
    (videoId : String) (timeSec : ℚ) (now : String) :
    Except String (Option (String × String)) × Redis :=
  match db with
  | .error e => (.error e, r)
  | .ok d =>
    let t : Int := ⌊timeSec⌋
    match latestAnalysis d videoId with
    | none => (.ok none, r)
    | some a =>
      let bs := buildSnapshot videoId t a.objects a.ocr a.labels now
      (.ok (some (bs.1.score, bs.1.scoreboard)), exec r (buildBatch videoId t bs.1 bs.2))

/-- Ascending order of `zRangeWithScores(k, 0, -1)`: by score, ties broken by
the lexicographic order of the member string (the Redis sorted-set order). -/
def zleAsc (p q : String × ℚ) : Bool :=
  decide (p.2 < q.2 ∨ (p.2 = q.2 ∧ p.1 ≤ q.1))

/-- `zRangeWithScores(k, 0, -1)` on the model: all members of the sorted set
in ascending order (empty when the key is missing). -/
def zrangeWithScores (r : Redis) (k : String) : List (String × ℚ) :=
  sortByLe zleAsc ((zget r k).getD [])

/-- Shallow embedding of `getLiveStateAtTime` (live.ts lines 164-179):
`hGetAll` of a missing key yields an empty object, whose `videoId` is falsy,
so the read returns null; otherwise the labels list is fetched with
`zRangeWithScores` and attached. -/
def getLiveStateAtTime (r : Redis) (videoId : String) (timeSec : ℚ) :
    Option (Snapshot × List (String × ℚ)) :=
  let t : Int := ⌊timeSec⌋
  match hget r (key videoId t) with
  | none => none
  | some data =>
    if data.videoId = "" then none
    else some (data, zrangeWithScores r (labelKey videoId t))

/-- Shallow embedding of the GET handler of
`src/app/api/analyze-video/route.ts` (lines 159-206): floor the `t`
parameter (`null` reads as 0), clamp negatives to 0, try the cache, on a miss
build once and re-read.  The third component counts how many times the
Snapshot Builder was invoked, which instruments the cache-aside protocol for
the claims. -/
def GET (db : DurableData) (r : Redis) (videoId : String) (tParam : Option ℚ)
    (now : String) : Option (Snapshot × List (String × ℚ)) × Redis × Nat :=
  let t : Int := ⌊tParam.getD 0⌋
  let timeSec : Int := if 0 ≤ t then t else 0
  match getLiveStateAtTime r videoId (timeSec : ℚ) with
  | some cached => (some cached, r, 0)
  | none =>
    let br := buildLiveStateAtTime (.ok db) r videoId (timeSec : ℚ) now
    (getLiveStateAtTime br.2 videoId (timeSec : ℚ), br.2, 1)

/- ===================== claim-side (spec-worded) definitions ===================== -/

/-- Split one digit run into the greedy chunks that `/\d{1,2}/g` produces:
two digits at a time, a trailing single digit last. -/
def chunk2 : List Char → List (List Char)
  | [] => []
  | [a] => [[a]]
  | a :: b :: r => [a, b] :: chunk2 r

/-- Concatenation of the images of a list-valued function. -/
def concatMap (f : α → List β) : List α → List β
  | [] => []
  | a :: l => f a ++ concatMap f l

/-- Number of maximal digit runs, computed with a was-previous-a-digit flag
(used to relate digit runs before and after whitespace normalisation). -/
def runsGo : Bool → List Char → Nat
  | _, [] => 0
  | prev, c :: rest =>
    if isDigitC c then
      (if prev then 0 else 1) + runsGo true rest
    else runsGo false rest

/-- Format the first two found numbers as the engine does; nothing when fewer
than two numbers exist.  Spec-side rendering of extraction step 3/4. -/
def fmtFirstTwo : List (List Char) → Option (List Char)
  | n1 :: n2 :: _ => some (n1 ++ '-' :: n2)
  | _ => none

/-- Spec reading of the fallback input set for claim C6: the standalone 1-2
digit numbers of the text, i.e. the maximal digit runs of length at most 2. -/
def specStandaloneNums (s : List Char) : List (List Char) :=
  (digitRuns s).filter (fun r => decide (r.length ≤ 2))

/-- The order of claim C3, stated in the words of the spec: greater start
time first, then greater confidence, then greater (or equal) end time. -/
def lexGE (a b : Ev) : Prop :=
  (getRange b).1 < (getRange a).1
  ∨ ((getRange a).1 = (getRange b).1 ∧
      (confOf b < confOf a
        ∨ (confOf a = confOf b ∧ (getRange b).2 ≤ (getRange a).2)))

/-- The person filter in the words of claim C2: name is person, duration
`end - start` at least 2 seconds, active at the query time. -/
def personClaim (t : ℚ) (o : Ev) : Bool :=
  (o.name_ == some "person")
    && decide ((getRange o).2 - (getRange o).1 ≥ 2)
    && isInWindow o t

/-- The seven classification labels of the label-ranking test vector, with
confidences 0.2, 0.9, 0.5, 0.95, 0.1, 0.3, 0.4. -/
def labelVec : List Ev :=
  [⟨some "L0", none, some (mkRat 2 10), none, none, none⟩,
   ⟨some "L1", none, some (mkRat 9 10), none, none, none⟩,
   ⟨some "L2", none, some (mkRat 5 10), none, none, none⟩,
   ⟨some "L3", none, some (mkRat 95 100), none, none, none⟩,
   ⟨some "L4", none, some (mkRat 1 10), none, none, none⟩,
   ⟨some "L5", none, some (mkRat 3 10), none, none, none⟩,
   ⟨some "L6", none, some (mkRat 4 10), none, none, none⟩]

/-- The cache state after one build for (vid, 0) on the seven-label input,
starting from an empty cache. -/
def labelVecState : Redis :=
  exec ⟨[], [], []⟩
    (buildBatch "vid" 0 (buildSnapshot "vid" 0 [] [] labelVec "now").1
      (buildSnapshot "vid" 0 [] [] labelVec "now").2)

/-- A minimal durable store holding one (empty) analysis for video v. -/
def exDoc : AnalysisDoc :=
  ⟨"a1", "v", 0, [], [], []⟩

def exDb : DurableData :=
  ⟨[exDoc]⟩

end Live

/- ============================================================
   Theorems.  Definitions end here; everything below is proof.
   ============================================================ -/

namespace Live

theorem digitRuns_cons (c : Char) (rest : List Char) :
    digitRuns (c :: rest)
      = if isDigitC c then
          (if headIsDigit rest then prependToFirst c (digitRuns rest)
           else [c] :: digitRuns rest)
        else digitRuns rest := rfl

/-- The structural `digitRuns` satisfies the natural takeWhile/dropWhile
unfolding at a digit character. -/
theorem digitRuns_cons_digit {c : Char} (rest : List Char) (h : isDigitC c = true) :
    digitRuns (c :: rest)
      = (c :: rest.takeWhile isDigitC) :: digitRuns (rest.dropWhile isDigitC) := by
  induction rest generalizing c with
  | nil => simp [digitRuns, h, headIsDigit, List.takeWhile, List.dropWhile]
  | cons d rest2 ih =>
    by_cases hd : isDigitC d = true
    · have hh : headIsDigit (d :: rest2) = true := by simp [headIsDigit, hd]
      rw [digitRuns_cons, if_pos h, if_pos hh, ih hd]
      simp [prependToFirst, List.takeWhile, List.dropWhile, hd]
    · have hd2 : isDigitC d = false := by simpa using hd
      have hh : headIsDigit (d :: rest2) = false := by simp [headIsDigit, hd2]
      rw [digitRuns_cons, if_pos h, hh, if_neg (by simp)]
      simp [List.takeWhile, List.dropWhile, hd2]

/-- At a non-digit character, `digitRuns` just skips. -/
theorem digitRuns_cons_nondigit {c : Char} (rest : List Char) (h : isDigitC c = false) :
    digitRuns (c :: rest) = digitRuns rest := by
  simp [digitRuns, h]

/- ===================== generic facts about the sort model ===================== -/

theorem mem_insertLe {le : α → α → Bool} {a x : α} {l : List α} :
    x ∈ insertLe le a l ↔ x = a ∨ x ∈ l := by
  induction l with
  | nil => simp [insertLe]
  | cons b l ih =>
    by_cases h : le a b = true
    · simp only [insertLe, if_pos h, List.mem_cons]
    · simp only [insertLe, if_neg h, List.mem_cons, ih]
      tauto

theorem mem_sortByLe {le : α → α → Bool} {x : α} {l : List α} :
    x ∈ sortByLe le l ↔ x ∈ l := by
  induction l with
  | nil => simp [sortByLe]
  | cons a l ih => simp [sortByLe, mem_insertLe, ih]

theorem pairwise_insertLe {le : α → α → Bool}
    (htot : ∀ x y, le x y = true ∨ le y x = true)
    (htr : ∀ x y z, le x y = true → le y z = true → le x z = true)
    {a : α} {l : List α} (h : l.Pairwise (fun x y => le x y = true)) :
    (insertLe le a l).Pairwise (fun x y => le x y = true) := by
  induction l with
  | nil => simp [insertLe]
  | cons b l ih =>
    rcases List.pairwise_cons.1 h with ⟨hb, hl⟩
    by_cases hab : le a b = true
    · rw [insertLe, if_pos hab]
      refine List.pairwise_cons.2 ⟨?_, h⟩
      intro y hy
      rcases List.mem_cons.1 hy with hyb | hyl
      · exact hyb ▸ hab
      · exact htr a b y hab (hb y hyl)
    · rw [insertLe, if_neg hab]
      refine List.pairwise_cons.2 ⟨?_, ih hl⟩
      intro y hy
      rcases mem_insertLe.1 hy with hya | hyl
      · rw [hya]
        rcases htot a b with h1 | h1
        · exact absurd h1 hab
        · exact h1
      · exact hb y hyl

theorem pairwise_sortByLe {le : α → α → Bool}
    (htot : ∀ x y, le x y = true ∨ le y x = true)
    (htr : ∀ x y z, le x y = true → le y z = true → le x z = true)
    (l : List α) :
    (sortByLe le l).Pairwise (fun x y => le x y = true) := by
  induction l with
  | nil => simp [sortByLe]
  | cons a l ih => exact pairwise_insertLe htot htr ih

/-- The head of the sorted list is below every element of the input list. -/
theorem sortByLe_head_le {le : α → α → Bool}
    (htot : ∀ x y, le x y = true ∨ le y x = true)
    (htr : ∀ x y z, le x y = true → le y z = true → le x z = true)
    {l : List α} {m : α} {rest : List α}
    (h : sortByLe le l = m :: rest) : ∀ x ∈ l, le m x = true := by
  intro x hx
  have hx2 : x ∈ m :: rest := h ▸ mem_sortByLe.2 hx
  rcases List.mem_cons.1 hx2 with hxm | hxr
  · subst hxm
    rcases htot x x with h1 | h1 <;> exact h1
  · have hp := pairwise_sortByLe htot htr l
    rw [h] at hp
    exact (List.pairwise_cons.1 hp).1 x hxr

theorem sortByLe_ne_nil {le : α → α → Bool} {l : List α} (h : l ≠ []) :
    sortByLe le l ≠ [] := by
  cases l with
  | nil => exact absurd rfl h
  | cons a l =>
    rw [sortByLe]
    cases hs : sortByLe le l with
    | nil => simp [insertLe]
    | cons b m =>
      rw [insertLe]
      by_cases hab : le a b = true <;> simp [hab]

/- ===================== digit runs versus greedy two-digit chunks ===================== -/

/-- Splitting off the leading digit run commutes with chunking. -/
theorem concatMap_digitRuns_split (u : List Char) :
    chunk2 (u.takeWhile isDigitC) ++ concatMap chunk2 (digitRuns (u.dropWhile isDigitC))
      = concatMap chunk2 (digitRuns u) := by
  cases u with
  | nil => rfl
  | cons e u2 =>
    by_cases he : isDigitC e = true
    · rw [digitRuns_cons_digit u2 he]
      simp [List.takeWhile_cons, List.dropWhile_cons, he, concatMap]
    · have he2 : isDigitC e = false := by simpa using he
      simp [List.takeWhile_cons, List.dropWhile_cons, he2, chunk2, concatMap,
        digitRuns_cons_nondigit u2 he2]

/-- The global `\d{1,2}` matches are exactly the greedy 2-chunks of the
maximal digit runs, in order. -/
theorem globalDigits12_eq_chunks :
    ∀ s : List Char, globalDigits12 s = concatMap chunk2 (digitRuns s)
  | [] => rfl
  | [c] => by
    by_cases hc : isDigitC c = true
    · simp [globalDigits12, hc, digitRuns, headIsDigit, concatMap, chunk2]
    · have hc2 : isDigitC c = false := by simpa using hc
      simp [globalDigits12, hc2, digitRuns, concatMap]
  | c :: d :: rest2 => by
    by_cases hc : isDigitC c = true
    · by_cases hd : isDigitC d = true
      · have hl : globalDigits12 (c :: d :: rest2) = [c, d] :: globalDigits12 rest2 := by
          simp [globalDigits12, hc, hd]
        rw [hl, digitRuns_cons_digit _ hc, globalDigits12_eq_chunks rest2]
        simp only [List.takeWhile_cons, List.dropWhile_cons, hd, if_pos rfl, if_true,
          concatMap, chunk2]
        rw [← concatMap_digitRuns_split rest2]
        simp
      · have hd2 : isDigitC d = false := by simpa using hd
        have hl : globalDigits12 (c :: d :: rest2) = [c] :: globalDigits12 (d :: rest2) := by
          simp [globalDigits12, hc, hd2]
        rw [hl, digitRuns_cons_digit _ hc, globalDigits12_eq_chunks (d :: rest2)]
        simp [List.takeWhile_cons, List.dropWhile_cons, hd2, concatMap, chunk2]
    · have hc2 : isDigitC c = false := by simpa using hc
      have hl : globalDigits12 (c :: d :: rest2) = globalDigits12 (d :: rest2) := by
        simp [globalDigits12, hc2]
      rw [hl, digitRuns_cons_nondigit _ hc2, globalDigits12_eq_chunks (d :: rest2)]

/-- Every maximal digit run is nonempty. -/
theorem digitRuns_ne_nil : ∀ s : List Char, ∀ r ∈ digitRuns s, r ≠ []
  | [] => by simp [digitRuns]
  | c :: rest => by
    intro r hr
    rw [digitRuns_cons] at hr
    by_cases hc : isDigitC c = true
    · rw [if_pos hc] at hr
      by_cases hh : headIsDigit rest = true
      · rw [if_pos hh] at hr
        cases hruns : digitRuns rest with
        | nil =>
          rw [hruns] at hr
          simp only [prependToFirst, List.mem_singleton] at hr
          simp [hr]
        | cons q qs =>
          rw [hruns] at hr
          simp only [prependToFirst, List.mem_cons] at hr
          rcases hr with rfl | hr2
          · simp
          · exact digitRuns_ne_nil rest r (by rw [hruns]; exact List.mem_cons_of_mem q hr2)
      · rw [if_neg (by simpa using hh)] at hr
        rcases List.mem_cons.1 hr with rfl | hr2
        · simp
        · exact digitRuns_ne_nil rest r hr2
    · rw [if_neg hc] at hr
      exact digitRuns_ne_nil rest r hr

theorem chunk2_short {r : List Char} (hne : r ≠ []) (hlen : r.length ≤ 2) :
    chunk2 r = [r] := by
  rcases r with _ | ⟨a, _ | ⟨b, _ | ⟨c, t⟩⟩⟩
  · exact absurd rfl hne
  · rfl
  · rfl
  · simp at hlen

theorem concatMap_chunk2_id {l : List (List Char)}
    (h : ∀ r ∈ l, r ≠ [] ∧ r.length ≤ 2) : concatMap chunk2 l = l := by
  induction l with
  | nil => rfl
  | cons r rs ih =>
    rw [concatMap, chunk2_short (h r (List.mem_cons_self r rs)).1
      (h r (List.mem_cons_self r rs)).2,
      ih (fun q hq => h q (List.mem_cons_of_mem r hq))]
    rfl

theorem concatMap_length_ge {f : α → List β} {l : List α} (h : ∀ a ∈ l, f a ≠ []) :
    l.length ≤ (concatMap f l).length := by
  induction l with
  | nil => simp [concatMap]
  | cons a l ih =>
    rw [concatMap, List.length_append]
    have h1 : 1 ≤ (f a).length :=
      List.length_pos.2 (h a (List.mem_cons_self a l))
    have h2 := ih (fun b hb => h b (List.mem_cons_of_mem a hb))
    simp only [List.length_cons]
    omega

/- ===================== claim C1 ===================== -/

/-- C1: `isInWindow e t` is true iff `start(e) <= t` and (`end(e) >= t` or
`end(e) = start(e)`); an event without an explicit end is read back with
`end = start`; and a point event (`start = end`) is in the window for every
`t >= start`, so it never expires through this predicate. -/
theorem isInWindow_characterization (e : Ev) (t : ℚ) :
    (isInWindow e t = true ↔
      (getRange e).1 ≤ t ∧ (t ≤ (getRange e).2 ∨ (getRange e).2 = (getRange e).1))
    ∧ (e.end_ = none → (getRange e).2 = (getRange e).1)
    ∧ ((getRange e).1 = (getRange e).2 → (getRange e).1 ≤ t → isInWindow e t = true) := by
  refine ⟨?_, ?_, ?_⟩
  · simp [isInWindow, ge_iff_le]
  · intro h
    simp [getRange, h]
  · intro hpe hle
    simp only [isInWindow, Bool.and_eq_true, Bool.or_eq_true, decide_eq_true_eq]
    exact ⟨hle, Or.inr hpe.symm⟩

/-- Witness for C1: the point event with start = end = 3 is still in the
window at t = 5. -/
theorem isInWindow_characterization_witness :
    isInWindow ⟨none, none, none, some 3, none, some 3⟩ 5 = true :=
  (isInWindow_characterization ⟨none, none, none, some 3, none, some 3⟩ 5).2.2
    (by decide) (by decide)

/- ===================== claim C2 ===================== -/

theorem max0_ge_two_iff (d : ℚ) : (max 0 d ≥ 2) ↔ (d ≥ 2) := by
  rw [ge_iff_le, le_max_iff]
  constructor
  · rintro (h | h)
    · norm_num at h
    · exact h
  · exact Or.inr

/-- The source person filter (`Math.max(0, end - start) >= 2`) agrees with the
claim wording (`end - start >= 2`). -/
theorem personPred_eq_personClaim (t : ℚ) (o : Ev) :
    personPred t o = personClaim t o := by
  unfold personPred personClaim
  rw [decide_eq_decide.2 (max0_ge_two_iff _)]

theorem filter_replicate_of_pos {p : α → Bool} {a : α} (h : p a = true) (n : Nat) :
    (List.replicate n a).filter p = List.replicate n a := by
  induction n with
  | zero => rfl
  | succ n ih => simp [List.replicate_succ, List.filter_cons, h, ih]

/-- C2: the snapshot's playerCount is the number of object detections named
person, with duration end - start at least 2 seconds, active at the query
time, capped at 14; and 20 active qualifying person detections yield exactly
14. -/
theorem playerCount_characterization (videoId : String) (t : Int)
    (objects ocr labels : List Ev) (now : String) :
    ((buildSnapshot videoId t objects ocr labels now).1.playerCount
      = min (objects.countP (personClaim (t : ℚ))) 14)
    ∧ (buildSnapshot "v" 5
        (List.replicate 20 ⟨some "person", none, some 1, some 0, none, some 10⟩)
        [] [] "n").1.playerCount = 14 := by
  constructor
  · show min (objects.filter (personPred (t : ℚ))).length 14 = _
    rw [List.filter_congr (fun o _ => personPred_eq_personClaim (t : ℚ) o),
      List.countP_eq_length_filter]
  · have hp : personPred (((5 : Int) : ℚ))
        ⟨some "person", none, some 1, some 0, none, some 10⟩ = true := by
      norm_num [personPred, getRange, isInWindow]
    show min ((List.replicate 20
        (⟨some "person", none, some 1, some 0, none, some 10⟩ : Ev)).filter
          (personPred (((5 : Int) : ℚ)))).length 14 = 14
    rw [filter_replicate_of_pos hp]
    simp

/- ===================== claim C3 ===================== -/

/-- The comparator of the scoreboard sort is non-positive exactly when the
first event is at least the second in the claimed lexicographic order
(descending start, then descending confidence, then descending end). -/
theorem ocrCmp_le_iff_lexGE (a b : Ev) : ocrCmp a b ≤ 0 ↔ lexGE a b := by
  unfold ocrCmp lexGE
  by_cases h1 : (getRange b).1 = (getRange a).1
  · rw [if_neg (not_not_intro h1)]
    by_cases h2 : confOf b = confOf a
    · rw [if_neg (not_not_intro h2), sub_nonpos]
      constructor
      · intro h
        exact Or.inr ⟨h1.symm, Or.inr ⟨h2.symm, h⟩⟩
      · rintro (hlt | ⟨hs, hclt | ⟨hce, hle⟩⟩)
        · exact absurd (h1 ▸ hlt) (lt_irrefl _)
        · exact absurd (h2 ▸ hclt) (lt_irrefl _)
        · exact hle
    · rw [if_pos h2, sub_nonpos]
      constructor
      · intro h
        exact Or.inr ⟨h1.symm, Or.inl (lt_of_le_of_ne h h2)⟩
      · rintro (hlt | ⟨hs, hclt | ⟨hce, hle⟩⟩)
        · exact absurd (h1 ▸ hlt) (lt_irrefl _)
        · exact le_of_lt hclt
        · exact absurd hce.symm h2
  · rw [if_pos h1, sub_nonpos]
    constructor
    · intro h
      exact Or.inl (lt_of_le_of_ne h h1)
    · rintro (hlt | ⟨hs, hr⟩)
      · exact le_of_lt hlt
      · exact absurd hs.symm h1

theorem lexGE_total (a b : Ev) : lexGE a b ∨ lexGE b a := by
  unfold lexGE
  rcases lt_trichotomy ((getRange b).1) ((getRange a).1) with h | h | h
  · exact Or.inl (Or.inl h)
  · rcases lt_trichotomy (confOf b) (confOf a) with h2 | h2 | h2
    · exact Or.inl (Or.inr ⟨h.symm, Or.inl h2⟩)
    · rcases le_total ((getRange b).2) ((getRange a).2) with h3 | h3
      · exact Or.inl (Or.inr ⟨h.symm, Or.inr ⟨h2.symm, h3⟩⟩)
      · exact Or.inr (Or.inr ⟨h, Or.inr ⟨h2, h3⟩⟩)
    · exact Or.inr (Or.inr ⟨h, Or.inl h2⟩)
  · exact Or.inr (Or.inl h)

theorem lexGE_trans {a b c : Ev} (h1 : lexGE a b) (h2 : lexGE b c) : lexGE a c := by
  unfold lexGE at h1 h2 ⊢
  rcases h1 with hs1 | ⟨he1, hr1⟩
  · rcases h2 with hs2 | ⟨he2, hr2⟩
    · exact Or.inl (lt_trans hs2 hs1)
    · exact Or.inl (he2 ▸ hs1)
  · rcases h2 with hs2 | ⟨he2, hr2⟩
    · exact Or.inl (lt_of_lt_of_le hs2 (le_of_eq he1.symm))
    · refine Or.inr ⟨he1.trans he2, ?_⟩
      rcases hr1 with hc1 | ⟨hce1, hle1⟩
      · rcases hr2 with hc2 | ⟨hce2, hle2⟩
        · exact Or.inl (lt_trans hc2 hc1)
        · exact Or.inl (hce2 ▸ hc1)
      · rcases hr2 with hc2 | ⟨hce2, hle2⟩
        · exact Or.inl (lt_of_lt_of_le hc2 (le_of_eq hce1.symm))
        · exact Or.inr ⟨hce1.trans hce2, le_trans hle2 hle1⟩

theorem ocrLe_lexGE (a b : Ev) : ocrLe a b = true ↔ lexGE a b := by
  rw [ocrLe, decide_eq_true_eq, ocrCmp_le_iff_lexGE]

theorem ocrLe_total (x y : Ev) : ocrLe x y = true ∨ ocrLe y x = true := by
  rw [ocrLe_lexGE, ocrLe_lexGE]
  exact lexGE_total x y

theorem ocrLe_trans (x y z : Ev) (h1 : ocrLe x y = true) (h2 : ocrLe y z = true) :
    ocrLe x z = true := by
  rw [ocrLe_lexGE] at h1 h2 ⊢
  exact lexGE_trans h1 h2

/-- Sorting a two-element list whose order is strict puts the larger element
first, whichever way round the input comes. -/
theorem chooseBest_pair {a b : Ev} (hab : ocrLe a b = true) (hba : ocrLe b a = false) :
    chooseBest [a, b] = some a ∧ chooseBest [b, a] = some a := by
  constructor
  · show (sortByLe ocrLe [a, b]).head? = some a
    simp [sortByLe, insertLe, hab]
  · show (sortByLe ocrLe [b, a]).head? = some a
    simp [sortByLe, insertLe, hba]

theorem buildSnapshot_scoreboard_eq (videoId : String) (t : Int)
    (objects ocr labels : List Ev) (now : String) :
    (buildSnapshot videoId t objects ocr labels now).1.scoreboard
      = (match chooseBest (scoreboardCandidates ocr (t : ℚ)) with
          | some b => textOf b
          | none => "") := rfl

theorem buildSnapshot_score_eq (videoId : String) (t : Int)
    (objects ocr labels : List Ev) (now : String) :
    (buildSnapshot videoId t objects ocr labels now).1.score
      = (if (buildSnapshot videoId t objects ocr labels now).1.scoreboard = "" then ""
         else match extractScore ((buildSnapshot videoId t objects ocr labels
            now).1.scoreboard).toList with
          | some cs => String.mk cs
          | none => "") := rfl

/-- C3: among the gated, active scoreboard candidates the builder chooses a
maximum under the order descending start, then descending confidence, then
descending end; with equal start the higher confidence wins, with equal start
and confidence the later end wins; and with no surviving candidate both the
scoreboard text and the score are the empty string. -/
theorem scoreboard_selection (videoId : String) (t : Int)
    (objects ocr labels : List Ev) (now : String) :
    (scoreboardCandidates ocr (t : ℚ) ≠ [] →
      ∃ m, chooseBest (scoreboardCandidates ocr (t : ℚ)) = some m
        ∧ m ∈ scoreboardCandidates ocr (t : ℚ)
        ∧ ∀ x ∈ scoreboardCandidates ocr (t : ℚ), lexGE m x)
    ∧ (∀ a b : Ev, (getRange a).1 = (getRange b).1 → confOf b < confOf a →
        chooseBest [a, b] = some a ∧ chooseBest [b, a] = some a)
    ∧ (∀ a b : Ev, (getRange a).1 = (getRange b).1 → confOf a = confOf b →
        (getRange b).2 < (getRange a).2 →
        chooseBest [a, b] = some a ∧ chooseBest [b, a] = some a)
    ∧ (scoreboardCandidates ocr (t : ℚ) = [] →
        (buildSnapshot videoId t objects ocr labels now).1.scoreboard = ""
        ∧ (buildSnapshot videoId t objects ocr labels now).1.score = "") := by
  refine ⟨?_, ?_, ?_, ?_⟩
  · intro hne
    cases hs : sortByLe ocrLe (scoreboardCandidates ocr (t : ℚ)) with
    | nil => exact absurd hs (sortByLe_ne_nil hne)
    | cons m rest =>
      refine ⟨m, ?_, ?_, ?_⟩
      · rw [chooseBest, hs]
        rfl
      · exact mem_sortByLe.1 (hs ▸ List.mem_cons_self m rest)
      · intro x hx
        exact (ocrLe_lexGE m x).1 (sortByLe_head_le ocrLe_total ocrLe_trans hs x hx)
  · intro a b hstart hconf
    have hab : ocrLe a b = true :=
      (ocrLe_lexGE a b).2 (Or.inr ⟨hstart, Or.inl hconf⟩)
    have hba : ocrLe b a = false := by
      rw [ocrLe, decide_eq_false_iff_not, ocrCmp_le_iff_lexGE]
      rintro (hlt | ⟨hs, hclt | ⟨hce, hle⟩⟩)
      · exact absurd (hstart ▸ hlt) (lt_irrefl _)
      · exact absurd (lt_trans hconf hclt) (lt_irrefl _)
      · exact absurd hce (ne_of_lt hconf)
    exact chooseBest_pair hab hba
  · intro a b hstart hconf hend
    have hab : ocrLe a b = true :=
      (ocrLe_lexGE a b).2 (Or.inr ⟨hstart, Or.inr ⟨hconf, le_of_lt hend⟩⟩)
    have hba : ocrLe b a = false := by
      rw [ocrLe, decide_eq_false_iff_not, ocrCmp_le_iff_lexGE]
      rintro (hlt | ⟨hs, hclt | ⟨hce, hle⟩⟩)
      · exact absurd (hstart ▸ hlt) (lt_irrefl _)
      · exact absurd (hconf ▸ hclt) (lt_irrefl _)
      · exact absurd (lt_of_lt_of_le hend hle) (lt_irrefl _)
    exact chooseBest_pair hab hba
  · intro hemp
    have hnone : chooseBest (scoreboardCandidates ocr (t : ℚ)) = none := by
      rw [chooseBest, hemp]
      rfl
    have hsb : (buildSnapshot videoId t objects ocr labels now).1.scoreboard = "" := by
      rw [buildSnapshot_scoreboard_eq, hnone]
    refine ⟨hsb, ?_⟩
    rw [buildSnapshot_score_eq, hsb]
    simp

/-- Witness for C3: of two active candidates with equal start 1 and
confidences 0.9 versus 0.8, the sort puts the higher-confidence one first in
both input orders. -/
theorem scoreboard_selection_witness :
    chooseBest [⟨none, some "ARG 0 2 POR", some (mkRat 9 10), some 1, none, some 6⟩,
        ⟨none, some "ARG 0 1 POR", some (mkRat 8 10), some 1, none, some 6⟩]
      = some ⟨none, some "ARG 0 2 POR", some (mkRat 9 10), some 1, none, some 6⟩
    ∧ chooseBest [⟨none, some "ARG 0 1 POR", some (mkRat 8 10), some 1, none, some 6⟩,
        ⟨none, some "ARG 0 2 POR", some (mkRat 9 10), some 1, none, some 6⟩]
      = some ⟨none, some "ARG 0 2 POR", some (mkRat 9 10), some 1, none, some 6⟩ :=
  (scoreboard_selection "v" 0 [] [] [] "n").2.1
    ⟨none, some "ARG 0 2 POR", some (mkRat 9 10), some 1, none, some 6⟩
    ⟨none, some "ARG 0 1 POR", some (mkRat 8 10), some 1, none, some 6⟩
    (by decide) (by decide)

/- ===================== claim C4 ===================== -/

theorem labelLe_iff (a b : Ev) : labelLe a b = true ↔ confOf b ≤ confOf a := by
  rw [labelLe, decide_eq_true_eq, sub_nonpos]

/-- The label comparator, rewritten without the subtraction so that concrete
instances evaluate by kernel reduction. -/
theorem labelLe_eq : labelLe = fun a b => decide (confOf b ≤ confOf a) := by
  funext a b
  rw [labelLe, decide_eq_decide]
  exact sub_nonpos

theorem labelLe_total (x y : Ev) : labelLe x y = true ∨ labelLe y x = true := by
  rw [labelLe_iff, labelLe_iff]
  exact le_total (confOf y) (confOf x)

theorem labelLe_trans (x y z : Ev) (h1 : labelLe x y = true) (h2 : labelLe y z = true) :
    labelLe x z = true := by
  rw [labelLe_iff] at h1 h2 ⊢
  exact le_trans h2 h1

theorem zleAsc_iff (p q : String × ℚ) :
    zleAsc p q = true ↔ (p.2 < q.2 ∨ (p.2 = q.2 ∧ p.1 ≤ q.1)) := by
  rw [zleAsc, decide_eq_true_eq]

theorem zleAsc_total (p q : String × ℚ) : zleAsc p q = true ∨ zleAsc q p = true := by
  rw [zleAsc_iff, zleAsc_iff]
  rcases lt_trichotomy p.2 q.2 with h | h | h
  · exact Or.inl (Or.inl h)
  · rcases le_total p.1 q.1 with h2 | h2
    · exact Or.inl (Or.inr ⟨h, h2⟩)
    · exact Or.inr (Or.inr ⟨h.symm, h2⟩)
  · exact Or.inr (Or.inl h)

theorem zleAsc_trans (p q s : String × ℚ) (h1 : zleAsc p q = true)
    (h2 : zleAsc q s = true) : zleAsc p s = true := by
  rw [zleAsc_iff] at h1 h2 ⊢
  rcases h1 with h1 | ⟨he1, hs1⟩
  · rcases h2 with h2 | ⟨he2, hs2⟩
    · exact Or.inl (lt_trans h1 h2)
    · exact Or.inl (he2 ▸ h1)
  · rcases h2 with h2 | ⟨he2, hs2⟩
    · exact Or.inl (lt_of_le_of_lt (le_of_eq he1) h2)
    · exact Or.inr ⟨he1.trans he2, le_trans hs1 hs2⟩

/-- Concrete read-back of the seven-label build: the reader returns the five
highest-confidence labels in ascending confidence order. -/
theorem labelVecState_read :
    getLiveStateAtTime labelVecState "vid" 0
      = some ({ videoId := "vid", t := 0, playerCount := 0, scoreboard := "",
                score := "", lastUpdated := "now" },
          [("L5", mkRat 3 10), ("L6", mkRat 4 10), ("L2", mkRat 5 10),
           ("L1", mkRat 9 10), ("L3", mkRat 95 100)]) := by
  simp only [labelVecState, labelVec, getLiveStateAtTime, buildSnapshot, labelLe_eq,
    Int.floor_zero]
  decide

/-- Counterexample for C4: on the confidences [0.2, 0.9, 0.5, 0.95, 0.1, 0.3,
0.4] the label list returned to a reader is NOT the descending list [0.95,
0.9, 0.5, 0.4, 0.3] (it comes back ascending). -/
theorem label_ranking_counterexample :
    ¬ ((getLiveStateAtTime labelVecState "vid" 0).map (fun p => p.2.map Prod.snd)
        = some [mkRat 95 100, mkRat 9 10, mkRat 5 10, mkRat 4 10, mkRat 3 10]) := by
  rw [labelVecState_read]
  decide

/-- C4 (amended): the builder selects the top five labels by descending
confidence and writes them with their names; the reader returns the stored
pairs ordered by ascending confidence (ascending score with lexicographic
member tie-break); on the test vector the build-side top five confidences are
[0.95, 0.9, 0.5, 0.4, 0.3] and the reader receives them back in the reversed,
ascending order with names preserved. -/
theorem label_ranking_amended (videoId : String) (t : Int)
    (objects ocr labels : List Ev) (now : String) (r : Redis) (k : String) :
    ((buildSnapshot videoId t objects ocr labels now).2
      = ((sortByLe labelLe labels).take 5).map (fun l => ((l.name_).getD "", confOf l)))
    ∧ List.Pairwise (fun x y => confOf y ≤ confOf x) (sortByLe labelLe labels)
    ∧ List.Pairwise (fun p q => p.2 < q.2 ∨ (p.2 = q.2 ∧ p.1 ≤ q.1))
        (zrangeWithScores r k)
    ∧ ((buildSnapshot "vid" 0 [] [] labelVec "now").2).map Prod.snd
        = [mkRat 95 100, mkRat 9 10, mkRat 5 10, mkRat 4 10, mkRat 3 10]
    ∧ (getLiveStateAtTime labelVecState "vid" 0).map (fun p => p.2)
        = some [("L5", mkRat 3 10), ("L6", mkRat 4 10), ("L2", mkRat 5 10),
            ("L1", mkRat 9 10), ("L3", mkRat 95 100)] := by
  refine ⟨rfl, ?_, ?_, ?_, ?_⟩
  · exact (pairwise_sortByLe labelLe_total labelLe_trans labels).imp
      (fun h => (labelLe_iff _ _).1 h)
  · exact (pairwise_sortByLe zleAsc_total zleAsc_trans _).imp
      (fun h => (zleAsc_iff _ _).1 h)
  · show (((sortByLe labelLe labelVec).take 5).map
        (fun l => ((l.name_).getD "", confOf l))).map Prod.snd
      = [mkRat 95 100, mkRat 9 10, mkRat 5 10, mkRat 4 10, mkRat 3 10]
    rw [labelLe_eq]
    decide
  · rw [labelVecState_read]
    rfl

/- ===================== claim C5 ===================== -/

/-- C5: the concrete extraction vectors of the spec: the three team-anchored
inputs all yield 0-2, the two bare numbers yield 7-9, and a one-number
overlay yields nothing. -/
theorem extractScore_vectors :
    extractScore ("ARG 0 2 POR".toList) = some ("0-2".toList)
    ∧ extractScore ("ARG 0-2 POR".toList) = some ("0-2".toList)
    ∧ extractScore ("2 ARG 0 2 POR".toList) = some ("0-2".toList)
    ∧ extractScore ("7 9".toList) = some ("7-9".toList)
    ∧ extractScore ("1st PERIOD".toList) = none := by
  exact ⟨by decide, by decide, by decide, by decide, by decide⟩

/- ===================== claim C6 ===================== -/

/-- Counterexample for C6: on the text x 123 neither the team pattern nor the
separator pattern matches, and the text contains no standalone 1-2 digit
number at all (its only digit run is the three digits 123), so under the
claim extractScore would return nothing; the code instead chops the run into
greedy chunks and returns 12-3. -/
theorem extractScore_fallback_counterexample :
    teamMatch (normalizeWS ("x 123".toList)) = none
    ∧ dashMatch (normalizeWS ("x 123".toList)) = none
    ∧ specStandaloneNums ("x 123".toList) = []
    ∧ specStandaloneNums (normalizeWS ("x 123".toList)) = []
    ∧ extractScore ("x 123".toList) = some ("12-3".toList) := by
  exact ⟨by decide, by decide, by decide, by decide, by decide⟩

/-- C6 (amended): when neither the team-anchored nor the separator pattern
matches the normalised text, extractScore returns the first two greedy 1-2
digit chunks of the maximal digit runs, in order of appearance (a run of
three or more digits contributes several chunks), formatted num1-num2, and
nothing when fewer than two chunks exist; on texts whose maximal digit runs
all have at most two digits this coincides with the claimed
first-two-standalone-numbers rule. -/
theorem extractScore_fallback (s : List Char)
    (h1 : teamMatch (normalizeWS s) = none)
    (h2 : dashMatch (normalizeWS s) = none) :
    extractScore s = fmtFirstTwo (concatMap chunk2 (digitRuns (normalizeWS s)))
    ∧ ((∀ r ∈ digitRuns (normalizeWS s), r.length ≤ 2) →
        extractScore s = fmtFirstTwo (specStandaloneNums (normalizeWS s))) := by
  have hmain : extractScore s
      = fmtFirstTwo (concatMap chunk2 (digitRuns (normalizeWS s))) := by
    simp only [extractScore]
    rw [h1, h2, globalDigits12_eq_chunks]
    cases hc : concatMap chunk2 (digitRuns (normalizeWS s)) with
    | nil => rfl
    | cons n1 t =>
      cases t with
      | nil => rfl
      | cons n2 t2 => rfl
  refine ⟨hmain, fun hall => ?_⟩
  have hfil : specStandaloneNums (normalizeWS s) = digitRuns (normalizeWS s) := by
    unfold specStandaloneNums
    rw [List.filter_eq_self]
    intro r hr
    exact decide_eq_true (hall r hr)
  rw [hmain, concatMap_chunk2_id (fun r hr => ⟨digitRuns_ne_nil _ r hr, hall r hr⟩), hfil]

/-- Witness for C6: the amended fallback equation evaluated at the concrete
text x 123, whose pattern hypotheses hold by computation. -/
theorem extractScore_fallback_witness :
    extractScore ("x 123".toList)
      = fmtFirstTwo (concatMap chunk2 (digitRuns (normalizeWS ("x 123".toList)))) :=
  (extractScore_fallback ("x 123".toList) (by decide) (by decide)).1

/- ===================== claim C10 ===================== -/

theorem isSpaceJS_not_digit {c : Char} (h : isSpaceJS c = true) : isDigitC c = false := by
  simp only [isSpaceJS, Bool.or_eq_true, beq_iff_eq] at h
  rcases h with ((((h | h) | h) | h) | h) | h <;> subst h <;> rfl

theorem runsGo_cons_nondigit {c : Char} (b : Bool) (rest : List Char)
    (h : isDigitC c = false) : runsGo b (c :: rest) = runsGo false rest := by
  simp [runsGo, h]

theorem runsGo_cons_digit {c : Char} (b : Bool) (rest : List Char)
    (h : isDigitC c = true) :
    runsGo b (c :: rest) = (if b then 0 else 1) + runsGo true rest := by
  simp [runsGo, h]

/-- Collapsing whitespace runs to single spaces leaves the digit-run count
unchanged (the flags are compatible: a pending previous-was-space flag can
only occur when the previous emitted character was not a digit). -/
theorem runsGo_collapseGo :
    ∀ (s : List Char) (b p : Bool), (p = true → b = false) →
      runsGo b (collapseGo p s) = runsGo b s
  | [], _, _, _ => rfl
  | c :: rest, b, p, hpb => by
    by_cases hsp : isSpaceJS c = true
    · have hnd : isDigitC c = false := isSpaceJS_not_digit hsp
      rw [runsGo_cons_nondigit b rest hnd]
      cases p with
      | true =>
        have hb : b = false := hpb rfl
        subst hb
        rw [collapseGo, if_pos hsp, if_pos rfl]
        exact runsGo_collapseGo rest false true (fun _ => rfl)
      | false =>
        rw [collapseGo, if_pos hsp, if_neg (by simp)]
        rw [runsGo_cons_nondigit b (collapseGo true rest) (isSpaceJS_not_digit (by rfl))]
        exact runsGo_collapseGo rest false true (fun _ => rfl)
    · have hsp2 : isSpaceJS c = false := by simpa using hsp
      rw [collapseGo, if_neg (by simp [hsp2])]
      by_cases hc : isDigitC c = true
      · rw [runsGo_cons_digit b rest hc, runsGo_cons_digit b (collapseGo false rest) hc,
          runsGo_collapseGo rest true false (fun h => absurd h (by simp))]
      · have hc2 : isDigitC c = false := by simpa using hc
        rw [runsGo_cons_nondigit b rest hc2, runsGo_cons_nondigit b (collapseGo false rest) hc2,
          runsGo_collapseGo rest false false (fun h => absurd h (by simp))]

theorem runsGo_all_nondigit {t : List Char} (b : Bool)
    (h : ∀ c ∈ t, isDigitC c = false) : runsGo b t = 0 := by
  induction t generalizing b with
  | nil => rfl
  | cons c rest ih =>
    rw [runsGo_cons_nondigit b rest (h c (List.mem_cons_self c rest))]
    exact ih false (fun d hd => h d (List.mem_cons_of_mem c hd))

theorem runsGo_append_nondigit {t : List Char} (l : List Char) (b : Bool)
    (h : ∀ c ∈ t, isDigitC c = false) : runsGo b (l ++ t) = runsGo b l := by
  induction l generalizing b with
  | nil => simpa using runsGo_all_nondigit b h
  | cons c rest ih =>
    by_cases hc : isDigitC c = true
    · rw [List.cons_append, runsGo_cons_digit b _ hc, runsGo_cons_digit b rest hc, ih true]
    · have hc2 : isDigitC c = false := by simpa using hc
      rw [List.cons_append, runsGo_cons_nondigit b _ hc2, runsGo_cons_nondigit b rest hc2,
        ih false]

theorem runsGo_dropWhile_space :
    ∀ s : List Char, runsGo false (s.dropWhile isSpaceJS) = runsGo false s
  | [] => rfl
  | c :: rest => by
    rw [List.dropWhile_cons]
    by_cases hsp : isSpaceJS c = true
    · rw [if_pos hsp, runsGo_cons_nondigit false rest (isSpaceJS_not_digit hsp)]
      exact runsGo_dropWhile_space rest
    · rw [if_neg hsp]

theorem runsGo_dropTrailing (s : List Char) :
    runsGo false (dropTrailingSpaces s) = runsGo false s := by
  have hdecomp : dropTrailingSpaces s ++ (s.reverse.takeWhile isSpaceJS).reverse = s := by
    unfold dropTrailingSpaces
    rw [← List.reverse_append, List.takeWhile_append_dropWhile, List.reverse_reverse]
  have hsp : ∀ c ∈ (s.reverse.takeWhile isSpaceJS).reverse, isDigitC c = false := by
    intro c hc
    exact isSpaceJS_not_digit (List.mem_takeWhile_imp (List.mem_reverse.1 hc))
  calc runsGo false (dropTrailingSpaces s)
      = runsGo false (dropTrailingSpaces s ++ (s.reverse.takeWhile isSpaceJS).reverse) :=
        (runsGo_append_nondigit _ false hsp).symm
    _ = runsGo false s := by rw [hdecomp]

/-- The run count with a pending in-run flag equals the run count of the
string with its leading digits removed. -/
theorem runsGo_true_eq :
    ∀ l : List Char, runsGo true l = runsGo false (l.dropWhile isDigitC)
  | [] => rfl
  | c :: rest => by
    rw [List.dropWhile_cons]
    by_cases hc : isDigitC c = true
    · rw [if_pos hc, runsGo_cons_digit true rest hc]
      simpa using runsGo_true_eq rest
    · have hc2 : isDigitC c = false := by simpa using hc
      rw [if_neg (by simp [hc2]), runsGo_cons_nondigit true rest hc2,
        runsGo_cons_nondigit false rest hc2]

theorem length_dropWhile_le_self (p : α → Bool) :
    ∀ l : List α, (l.dropWhile p).length ≤ l.length
  | [] => le_refl _
  | a :: l => by
    rw [List.dropWhile_cons]
    by_cases h : p a = true
    · rw [if_pos h]
      exact le_trans (length_dropWhile_le_self p l) (Nat.le_succ _)
    · rw [if_neg h]

/-- The flagged run count computes the number of maximal digit runs. -/
theorem runsGo_eq_digitRuns_length :
    (s : List Char) → runsGo false s = (digitRuns s).length
  | [] => rfl
  | c :: rest => by
    by_cases hc : isDigitC c = true
    · rw [digitRuns_cons_digit rest hc, runsGo_cons_digit false rest hc,
        runsGo_true_eq rest, runsGo_eq_digitRuns_length (rest.dropWhile isDigitC),
        List.length_cons]
      exact Nat.add_comm 1 _
    · have hc2 : isDigitC c = false := by simpa using hc
      rw [digitRuns_cons_nondigit rest hc2, runsGo_cons_nondigit false rest hc2,
        runsGo_eq_digitRuns_length rest]
  termination_by s => s.length
  decreasing_by
    all_goals simp only [List.length_cons]
    · exact Nat.lt_succ_of_le (length_dropWhile_le_self isDigitC rest)
    · exact Nat.lt_succ_self _

/-- Whitespace normalisation preserves the number of maximal digit runs. -/
theorem digitRuns_length_normalizeWS (s : List Char) :
    (digitRuns (normalizeWS s)).length = (digitRuns s).length := by
  rw [← runsGo_eq_digitRuns_length, ← runsGo_eq_digitRuns_length]
  unfold normalizeWS trimJS collapseWS
  rw [runsGo_dropTrailing, runsGo_dropWhile_space,
    runsGo_collapseGo s false false (fun h => absurd h (by simp))]

/-- Helper for C10: behind the candidate gate the extraction always finds a
score: the gate guarantees at least two maximal digit runs, whitespace
normalisation preserves them, and every nonempty run yields at least one
greedy 1-2 digit chunk. -/
theorem gate_extractScore_isSome (text : List Char)
    (h : isScoreboardCandidate text = true) : (extractScore text).isSome = true := by
  rcases Bool.and_eq_true_iff.1 h with ⟨hteam, hruns⟩
  have hruns2 : 2 ≤ (digitRuns text).length := of_decide_eq_true hruns
  rw [extractScore]
  cases hteamm : teamMatch (normalizeWS text) with
  | some p => simp
  | none =>
    cases hdashm : dashMatch (normalizeWS text) with
    | some p => simp
    | none =>
      have hlen : 2 ≤ (globalDigits12 (normalizeWS text)).length := by
        rw [globalDigits12_eq_chunks]
        calc 2 ≤ (digitRuns text).length := hruns2
          _ = (digitRuns (normalizeWS text)).length :=
            (digitRuns_length_normalizeWS text).symm
          _ ≤ (concatMap chunk2 (digitRuns (normalizeWS text))).length :=
            concatMap_length_ge (fun r hr => by
              have hne := digitRuns_ne_nil (normalizeWS text) r hr
              cases hr2 : r with
              | nil => exact absurd hr2 hne
              | cons a t => cases t <;> simp [chunk2])
      cases hg : globalDigits12 (normalizeWS text) with
      | nil => rw [hg] at hlen; simp at hlen
      | cons n1 t =>
        cases t with
        | nil => rw [hg] at hlen; simp at hlen
        | cons n2 t2 => simp

/-- Every successful extraction is a nonempty character list: each of the
three branches returns two captured digit groups joined by a dash. -/
theorem extractScore_some_ne_nil {s cs : List Char}
    (h : extractScore s = some cs) : cs ≠ [] := by
  simp only [extractScore] at h
  cases hteam : teamMatch (normalizeWS s) with
  | some p =>
    obtain ⟨g2, g3⟩ := p
    rw [hteam] at h
    simp only [Option.some.injEq] at h
    subst h
    simp
  | none =>
    rw [hteam] at h
    cases hdash : dashMatch (normalizeWS s) with
    | some p =>
      obtain ⟨g1, g2⟩ := p
      rw [hdash] at h
      simp only [Option.some.injEq] at h
      subst h
      simp
    | none =>
      rw [hdash] at h
      cases hg : globalDigits12 (normalizeWS s) with
      | nil =>
        rw [hg] at h
        exact absurd h (by simp)
      | cons n1 t1 =>
        cases t1 with
        | nil =>
          rw [hg] at h
          exact absurd h (by simp)
        | cons n2 t2 =>
          rw [hg] at h
          simp only [Option.some.injEq] at h
          subst h
          simp

/-- C10: every text accepted by isScoreboardCandidate (a team token and at
least two digit runs) makes extractScore return a score — the
fewer-than-two-numbers branch is unreachable behind the candidate gate — and
consequently, whenever at least one gated candidate is active at the query
time, the built snapshot's score string is nonempty: a built snapshot has an
empty score only when no active scoreboard candidate existed. -/
theorem candidate_extractScore_isSome (text : List Char) (videoId : String)
    (t : Int) (objects ocr labels : List Ev) (now : String) :
    (isScoreboardCandidate text = true → (extractScore text).isSome = true)
    ∧ (scoreboardCandidates ocr (t : ℚ) ≠ [] →
        (buildSnapshot videoId t objects ocr labels now).1.score ≠ "") := by
  refine ⟨gate_extractScore_isSome text, ?_⟩
  intro hne
  cases hs : sortByLe ocrLe (scoreboardCandidates ocr (t : ℚ)) with
  | nil => exact absurd hs (sortByLe_ne_nil hne)
  | cons m rest =>
    have hbest : chooseBest (scoreboardCandidates ocr (t : ℚ)) = some m := by
      rw [chooseBest, hs]
      rfl
    have hmem : m ∈ scoreboardCandidates ocr (t : ℚ) :=
      mem_sortByLe.1 (hs ▸ List.mem_cons_self m rest)
    have hgate : isScoreboardCandidate (textOf m).toList = true := by
      have h1 := (List.mem_filter.1 hmem).1
      exact (List.mem_filter.1 h1).2
    have htext : textOf m ≠ "" := by
      intro he
      have h2 : 2 ≤ (digitRuns ((textOf m).toList)).length :=
        of_decide_eq_true (Bool.and_eq_true_iff.1 hgate).2
      rw [he] at h2
      simp [digitRuns] at h2
    have hsb : (buildSnapshot videoId t objects ocr labels now).1.scoreboard
        = textOf m := by
      rw [buildSnapshot_scoreboard_eq, hbest]
    obtain ⟨cs, hcs⟩ :=
      Option.isSome_iff_exists.1 (gate_extractScore_isSome _ hgate)
    have hscore : (buildSnapshot videoId t objects ocr labels now).1.score
        = String.mk cs := by
      rw [buildSnapshot_score_eq, hsb, if_neg htext, hcs]
    rw [hscore]
    intro hemp
    exact extractScore_some_ne_nil hcs (by
      have hdata := congrArg String.data hemp
      simpa using hdata)

/-- Witness for C10: the gate accepts ARG 0 2 POR and extractScore returns a
score there; and with one active gated candidate the built snapshot's score
string is nonempty. -/
theorem candidate_extractScore_isSome_witness :
    (extractScore ("ARG 0 2 POR".toList)).isSome = true
    ∧ (buildSnapshot "v" 5 []
        [⟨none, some "ARG 0 2 POR", some 1, some 1, none, some 6⟩] [] "n").1.score
      ≠ "" :=
  ⟨(candidate_extractScore_isSome ("ARG 0 2 POR".toList) "v" 5 []
      [⟨none, some "ARG 0 2 POR", some 1, some 1, none, some 6⟩] [] "n").1 (by decide),
   (candidate_extractScore_isSome ("ARG 0 2 POR".toList) "v" 5 []
      [⟨none, some "ARG 0 2 POR", some 1, some 1, none, some 6⟩] [] "n").2 (by decide)⟩

/- ===================== facts about the cache state machine ===================== -/

theorem alookup_cons (p : String × α) (l : List (String × α)) (k2 : String) :
    alookup (p :: l) k2 = if p.1 == k2 then some p.2 else alookup l k2 := by
  by_cases h : p.1 == k2
  · simp [alookup, List.find?_cons, h]
  · simp [alookup, List.find?_cons, h]

theorem alookup_aupdate_self :
    ∀ (l : List (String × α)) (k : String) (v : α), alookup (aupdate l k v) k = some v
  | [], k, v => by simp [aupdate, alookup_cons]
  | p :: l, k, v => by
    rw [aupdate]
    by_cases h : p.1 == k
    · rw [if_pos h, alookup_cons]
      simp
    · rw [if_neg h, alookup_cons, if_neg (by simpa using h)]
      exact alookup_aupdate_self l k v

theorem alookup_aupdate_ne :
    ∀ (l : List (String × α)) (k k2 : String) (v : α), k2 ≠ k →
      alookup (aupdate l k v) k2 = alookup l k2
  | [], k, k2, v, h => by
    simp [aupdate, alookup_cons, alookup]
    intro he
    exact absurd he.symm h
  | p :: l, k, k2, v, h => by
    rw [aupdate]
    by_cases hp : p.1 == k
    · rw [if_pos hp, alookup_cons, alookup_cons]
      have hk : (k == k2) = false := by
        simp only [beq_eq_false_iff_ne, ne_eq]
        exact fun he => h he.symm
      rw [hk, if_neg (by simp)]
      have hp2 : (p.1 == k2) = false := by
        have := beq_iff_eq.1 hp
        simp only [beq_eq_false_iff_ne, ne_eq, this]
        exact fun he => h he.symm
      rw [hp2, if_neg (by simp)]
    · rw [if_neg hp, alookup_cons, alookup_cons]
      by_cases hq : p.1 == k2
      · rw [if_pos hq, if_pos hq]
      · rw [if_neg hq, if_neg hq]
        exact alookup_aupdate_ne l k k2 v h

theorem alookup_aremove_self (l : List (String × α)) (k : String) :
    alookup (aremove l k) k = none := by
  induction l with
  | nil => rfl
  | cons p l ih =>
    rw [aremove, List.filter_cons]
    by_cases h : p.1 == k
    · rw [if_neg (by simp [bne, h])]
      exact ih
    · rw [if_pos (by simp [bne, h])]
      rw [alookup_cons, if_neg h]
      exact ih

theorem alookup_aremove_ne (l : List (String × α)) (k k2 : String) (h : k2 ≠ k) :
    alookup (aremove l k) k2 = alookup l k2 := by
  induction l with
  | nil => rfl
  | cons p l ih =>
    rw [aremove, List.filter_cons]
    by_cases hp : p.1 == k
    · rw [if_neg (by simp [bne, hp])]
      rw [alookup_cons, if_neg (by
        have := beq_iff_eq.1 hp
        simp only [this, beq_eq_false_iff_ne, ne_eq]
        simpa using fun he => h he.symm)]
      exact ih
    · rw [if_pos (by simp [bne, hp])]
      rw [alookup_cons, alookup_cons]
      by_cases hq : p.1 == k2
      · rw [if_pos hq, if_pos hq]
      · rw [if_neg hq, if_neg hq]
        exact ih

/-- The snapshot key and the label key of one (videoId, t) pair differ. -/
theorem key_ne_labelKey (videoId : String) (t : Int) :
    key videoId t ≠ labelKey videoId t := by
  intro h
  have hlen := congrArg String.length h
  simp only [key, labelKey, String.length_append] at hlen
  have h7 : (":labels" : String).length = 7 := rfl
  omega

theorem hget_eq (r : Redis) (k : String) : hget r k = alookup r.hashes k := rfl

theorem zget_eq (r : Redis) (k : String) : zget r k = alookup r.zsets k := rfl

theorem ttlOf_eq (r : Redis) (k : String) : ttlOf r k = alookup r.ttls k := rfl

theorem exec_cons (r : Redis) (c : Cmd) (cs : List Cmd) :
    exec r (c :: cs) = exec (applyCmd r c) cs := rfl

theorem exec_append (r : Redis) (cs ds : List Cmd) :
    exec r (cs ++ ds) = exec (exec r cs) ds := by
  simp [exec, List.foldl_append]

/-- Bulk facts about a run of zAdd commands on one key: hashes and TTLs are
untouched, other sorted sets are untouched, and the target set accumulates
the fold of the entries (still absent when there are no entries). -/
theorem exec_zadds (k : String) :
    ∀ (adds : List (String × ℚ)) (r : Redis),
      ((exec r (adds.map (fun p => Cmd.zadd k p.1 p.2))).hashes = r.hashes)
      ∧ ((exec r (adds.map (fun p => Cmd.zadd k p.1 p.2))).ttls = r.ttls)
      ∧ (∀ k2, k2 ≠ k →
          zget (exec r (adds.map (fun p => Cmd.zadd k p.1 p.2))) k2 = zget r k2)
      ∧ (zget (exec r (adds.map (fun p => Cmd.zadd k p.1 p.2))) k
          = if adds.isEmpty then zget r k
            else some (adds.foldl (fun acc p => zaddEntry acc p.1 p.2)
              ((zget r k).getD [])))
  | [], r => by simp [exec]
  | a :: adds, r => by
    rw [List.map_cons, exec_cons]
    have ih := exec_zadds k adds (applyCmd r (Cmd.zadd k a.1 a.2))
    have hhash : (applyCmd r (Cmd.zadd k a.1 a.2)).hashes = r.hashes := rfl
    have httl : (applyCmd r (Cmd.zadd k a.1 a.2)).ttls = r.ttls := rfl
    have hzself : zget (applyCmd r (Cmd.zadd k a.1 a.2)) k
        = some (zaddEntry ((zget r k).getD []) a.1 a.2) := by
      show alookup (aupdate r.zsets k _) k = _
      exact alookup_aupdate_self r.zsets k _
    have hzne : ∀ k2, k2 ≠ k → zget (applyCmd r (Cmd.zadd k a.1 a.2)) k2 = zget r k2 := by
      intro k2 h2
      show alookup (aupdate r.zsets k _) k2 = _
      exact alookup_aupdate_ne r.zsets k k2 _ h2
    refine ⟨ih.1.trans hhash, ih.2.1.trans httl, ?_, ?_⟩
    · intro k2 h2
      rw [ih.2.2.1 k2 h2, hzne k2 h2]
    · rw [ih.2.2.2, hzself]
      cases adds with
      | nil => simp [List.foldl]
      | cons b bs => simp [List.foldl]

/-- Full characterisation of the atomic build batch: after EXEC the snapshot
hash, its TTL, the rebuilt label set and its TTL are exactly the new values
regardless of the prior state, and every other key is untouched. -/
theorem exec_buildBatch (videoId : String) (t : Int) (snap : Snapshot)
    (zadds : List (String × ℚ)) (r : Redis) :
    (hget (exec r (buildBatch videoId t snap zadds)) (key videoId t) = some snap)
    ∧ (ttlOf (exec r (buildBatch videoId t snap zadds)) (key videoId t) = some TTL)
    ∧ (zget (exec r (buildBatch videoId t snap zadds)) (labelKey videoId t)
        = if zadds.isEmpty then none
          else some (zadds.foldl (fun acc p => zaddEntry acc p.1 p.2) []))
    ∧ (ttlOf (exec r (buildBatch videoId t snap zadds)) (labelKey videoId t)
        = if zadds.isEmpty then none else some TTL)
    ∧ (∀ k2, k2 ≠ key videoId t → k2 ≠ labelKey videoId t →
        hget (exec r (buildBatch videoId t snap zadds)) k2 = hget r k2)
    ∧ (∀ k2, k2 ≠ labelKey videoId t →
        zget (exec r (buildBatch videoId t snap zadds)) k2 = zget r k2)
    ∧ (∀ k2, k2 ≠ key videoId t → k2 ≠ labelKey videoId t →
        ttlOf (exec r (buildBatch videoId t snap zadds)) k2 = ttlOf r k2) := by
  have hne := key_ne_labelKey videoId t
  set k := key videoId t with hk
  set lk := labelKey videoId t with hlk
  set r1 := applyCmd r (Cmd.hsetAll k snap) with hr1
  set r2 := applyCmd r1 (Cmd.expire k TTL) with hr2
  set r3 := applyCmd r2 (Cmd.del lk) with hr3
  set r4 := exec r3 (zadds.map (fun p => Cmd.zadd lk p.1 p.2)) with hr4
  have hbatch : exec r (buildBatch videoId t snap zadds)
      = applyCmd r4 (Cmd.expire lk TTL) := by
    rw [buildBatch, exec_cons, exec_cons, exec_cons, exec_append]
    rfl
  have h1h : r1.hashes = aupdate r.hashes k snap := rfl
  have h1z : r1.zsets = r.zsets := rfl
  have h1t : r1.ttls = r.ttls := rfl
  have h1hself : hget r1 k = some snap := by
    rw [hget_eq, h1h]
    exact alookup_aupdate_self r.hashes k snap
  have h1hne : ∀ k2, k2 ≠ k → hget r1 k2 = hget r k2 := by
    intro k2 h2
    rw [hget_eq, h1h, alookup_aupdate_ne r.hashes k k2 snap h2, ← hget_eq]
  have h2ex : keyExists r1 k = true := by
    rw [keyExists, h1hself]
    rfl
  have h2eq : r2 = { r1 with ttls := aupdate r1.ttls k TTL } := by
    rw [hr2, applyCmd, if_pos h2ex]
  have h2h : r2.hashes = r1.hashes := by rw [h2eq]
  have h2z : r2.zsets = r1.zsets := by rw [h2eq]
  have h2t : r2.ttls = aupdate r1.ttls k TTL := by rw [h2eq]
  have h3h : r3.hashes = aremove r2.hashes lk := rfl
  have h3z : r3.zsets = aremove r2.zsets lk := rfl
  have h3t : r3.ttls = aremove r2.ttls lk := rfl
  have h3hself : hget r3 k = some snap := by
    rw [hget_eq, h3h, alookup_aremove_ne r2.hashes lk k hne, h2h, h1h]
    exact alookup_aupdate_self r.hashes k snap
  have h3hne : ∀ k2, k2 ≠ k → k2 ≠ lk → hget r3 k2 = hget r k2 := by
    intro k2 h2 h3
    rw [hget_eq, h3h, alookup_aremove_ne r2.hashes lk k2 h3, h2h, h1h,
      alookup_aupdate_ne r.hashes k k2 snap h2, ← hget_eq]
  have h3hlk : hget r3 lk = none := by
    rw [hget_eq, h3h]
    exact alookup_aremove_self r2.hashes lk
  have h3zlk : zget r3 lk = none := by
    rw [zget_eq, h3z]
    exact alookup_aremove_self r2.zsets lk
  have h3zne : ∀ k2, k2 ≠ lk → zget r3 k2 = zget r k2 := by
    intro k2 h3
    rw [zget_eq, h3z, alookup_aremove_ne r2.zsets lk k2 h3, h2z, h1z, ← zget_eq]
  have h3tself : ttlOf r3 k = some TTL := by
    rw [ttlOf_eq, h3t, alookup_aremove_ne r2.ttls lk k hne, h2t]
    exact alookup_aupdate_self r1.ttls k TTL
  have h3tlk : ttlOf r3 lk = none := by
    rw [ttlOf_eq, h3t]
    exact alookup_aremove_self r2.ttls lk
  have h3tne : ∀ k2, k2 ≠ k → k2 ≠ lk → ttlOf r3 k2 = ttlOf r k2 := by
    intro k2 h2 h3
    rw [ttlOf_eq, h3t, alookup_aremove_ne r2.ttls lk k2 h3, h2t,
      alookup_aupdate_ne r1.ttls k k2 TTL h2, h1t, ← ttlOf_eq]
  have h4 := exec_zadds lk zadds r3
  rw [← hr4] at h4
  have h4hk : ∀ k2, hget r4 k2 = hget r3 k2 := by
    intro k2
    rw [hget_eq, h4.1, ← hget_eq]
  have h4tk : ∀ k2, ttlOf r4 k2 = ttlOf r3 k2 := by
    intro k2
    rw [ttlOf_eq, h4.2.1, ← ttlOf_eq]
  have h4zlk : zget r4 lk
      = (if zadds.isEmpty then none
         else some (zadds.foldl (fun acc p => zaddEntry acc p.1 p.2) [])) := by
    rw [h4.2.2.2, h3zlk]
    rfl
  have h5ex : keyExists r4 lk = !zadds.isEmpty := by
    rw [keyExists, h4hk lk, h3hlk, h4zlk]
    cases hz0 : zadds.isEmpty
    · rfl
    · rfl
  rw [hbatch]
  cases hz : zadds.isEmpty with
  | true =>
    have h5eq : applyCmd r4 (Cmd.expire lk TTL) = r4 := by
      rw [applyCmd, if_neg (by rw [h5ex, hz]; simp)]
    rw [h5eq]
    refine ⟨?_, ?_, ?_, ?_, ?_, ?_, ?_⟩
    · rw [h4hk k]
      exact h3hself
    · rw [h4tk k]
      exact h3tself
    · rw [h4zlk, hz]
    · rw [h4tk lk]
      exact h3tlk
    · intro k2 h2 h3
      rw [h4hk k2]
      exact h3hne k2 h2 h3
    · intro k2 h3
      rw [h4.2.2.1 k2 h3]
      exact h3zne k2 h3
    · intro k2 h2 h3
      rw [h4tk k2]
      exact h3tne k2 h2 h3
  | false =>
    have h5eq : applyCmd r4 (Cmd.expire lk TTL)
        = { r4 with ttls := aupdate r4.ttls lk TTL } := by
      rw [applyCmd, if_pos (by rw [h5ex, hz]; rfl)]
    rw [h5eq]
    have h5h : ∀ k2, hget { r4 with ttls := aupdate r4.ttls lk TTL } k2 = hget r4 k2 :=
      fun k2 => rfl
    have h5z : ∀ k2, zget { r4 with ttls := aupdate r4.ttls lk TTL } k2 = zget r4 k2 :=
      fun k2 => rfl
    refine ⟨?_, ?_, ?_, ?_, ?_, ?_, ?_⟩
    · rw [h5h k, h4hk k]
      exact h3hself
    · rw [show ttlOf { r4 with ttls := aupdate r4.ttls lk TTL } k
          = alookup (aupdate r4.ttls lk TTL) k from rfl,
        alookup_aupdate_ne r4.ttls lk k TTL hne, ← ttlOf_eq, h4tk k]
      exact h3tself
    · rw [h5z lk, h4zlk, hz]
    · rw [show ttlOf { r4 with ttls := aupdate r4.ttls lk TTL } lk
          = alookup (aupdate r4.ttls lk TTL) lk from rfl,
        alookup_aupdate_self r4.ttls lk TTL]
      simp
    · intro k2 h2 h3
      rw [h5h k2, h4hk k2]
      exact h3hne k2 h2 h3
    · intro k2 h3
      rw [h5z k2, h4.2.2.1 k2 h3]
      exact h3zne k2 h3
    · intro k2 h2 h3
      rw [show ttlOf { r4 with ttls := aupdate r4.ttls lk TTL } k2
          = alookup (aupdate r4.ttls lk TTL) k2 from rfl,
        alookup_aupdate_ne r4.ttls lk k2 TTL h3, ← ttlOf_eq, h4tk k2]
      exact h3tne k2 h2 h3

/- ===================== claim C8 ===================== -/

/-- C8: a build either propagates a durable-store failure with the cache left
exactly as it was, returns null with an untouched cache when no analysis
exists, or applies the whole snapshot — hash fields, ranked label set and the
TTLs of both keys — as one indivisible batch whose outcome replaces whatever
was previously stored under the two cache keys, touches no other key, and
returns the computed (score, scoreboard) pair; no partial snapshot is ever
persisted. -/
theorem build_atomic (d : DurableData) (r : Redis) (videoId : String)
    (timeSec : ℚ) (now : String) (e : String) :
    (buildLiveStateAtTime (.error e) r videoId timeSec now = (.error e, r))
    ∧ (latestAnalysis d videoId = none →
        buildLiveStateAtTime (.ok d) r videoId timeSec now = (.ok none, r))
    ∧ (∀ a, latestAnalysis d videoId = some a →
        (buildLiveStateAtTime (.ok d) r videoId timeSec now).1
          = .ok (some
              ((buildSnapshot videoId ⌊timeSec⌋ a.objects a.ocr a.labels now).1.score,
               (buildSnapshot videoId ⌊timeSec⌋ a.objects a.ocr a.labels now).1.scoreboard))
        ∧ hget (buildLiveStateAtTime (.ok d) r videoId timeSec now).2
            (key videoId ⌊timeSec⌋)
          = some (buildSnapshot videoId ⌊timeSec⌋ a.objects a.ocr a.labels now).1
        ∧ ttlOf (buildLiveStateAtTime (.ok d) r videoId timeSec now).2
            (key videoId ⌊timeSec⌋) = some TTL
        ∧ zget (buildLiveStateAtTime (.ok d) r videoId timeSec now).2
            (labelKey videoId ⌊timeSec⌋)
          = (if ((buildSnapshot videoId ⌊timeSec⌋ a.objects a.ocr a.labels now).2).isEmpty
             then none
             else some (((buildSnapshot videoId ⌊timeSec⌋ a.objects a.ocr a.labels
                now).2).foldl (fun acc p => zaddEntry acc p.1 p.2) []))
        ∧ ttlOf (buildLiveStateAtTime (.ok d) r videoId timeSec now).2
            (labelKey videoId ⌊timeSec⌋)
          = (if ((buildSnapshot videoId ⌊timeSec⌋ a.objects a.ocr a.labels now).2).isEmpty
             then none else some TTL)
        ∧ (∀ k2, k2 ≠ key videoId ⌊timeSec⌋ → k2 ≠ labelKey videoId ⌊timeSec⌋ →
            hget (buildLiveStateAtTime (.ok d) r videoId timeSec now).2 k2 = hget r k2
            ∧ ttlOf (buildLiveStateAtTime (.ok d) r videoId timeSec now).2 k2
              = ttlOf r k2)
        ∧ (∀ k2, k2 ≠ labelKey videoId ⌊timeSec⌋ →
            zget (buildLiveStateAtTime (.ok d) r videoId timeSec now).2 k2 = zget r k2)) := by
  refine ⟨rfl, ?_, ?_⟩
  · intro h
    simp [buildLiveStateAtTime, h]
  · intro a ha
    have hstate : buildLiveStateAtTime (.ok d) r videoId timeSec now
        = (.ok (some
            ((buildSnapshot videoId ⌊timeSec⌋ a.objects a.ocr a.labels now).1.score,
             (buildSnapshot videoId ⌊timeSec⌋ a.objects a.ocr a.labels now).1.scoreboard)),
           exec r (buildBatch videoId ⌊timeSec⌋
             (buildSnapshot videoId ⌊timeSec⌋ a.objects a.ocr a.labels now).1
             (buildSnapshot videoId ⌊timeSec⌋ a.objects a.ocr a.labels now).2)) := by
      simp only [buildLiveStateAtTime, ha]
    have hx := exec_buildBatch videoId ⌊timeSec⌋
      (buildSnapshot videoId ⌊timeSec⌋ a.objects a.ocr a.labels now).1
      (buildSnapshot videoId ⌊timeSec⌋ a.objects a.ocr a.labels now).2 r
    refine ⟨by rw [hstate], ?_, ?_, ?_, ?_, ?_, ?_⟩
    · rw [hstate]
      exact hx.1
    · rw [hstate]
      exact hx.2.1
    · rw [hstate]
      exact hx.2.2.1
    · rw [hstate]
      exact hx.2.2.2.1
    · intro k2 h2 h3
      rw [hstate]
      exact ⟨hx.2.2.2.2.1 k2 h2 h3, hx.2.2.2.2.2.2 k2 h2 h3⟩
    · intro k2 h3
      rw [hstate]
      exact hx.2.2.2.2.2.1 k2 h3

/-- Witness for C8: against the one-analysis durable store and an empty
cache, the build for (v, 0) leaves the snapshot hash stored under its key. -/
theorem build_atomic_witness :
    hget (buildLiveStateAtTime (.ok exDb) ⟨[], [], []⟩ "v" 0 "now").2 (key "v" ⌊(0 : ℚ)⌋)
      = some (buildSnapshot "v" ⌊(0 : ℚ)⌋ exDoc.objects exDoc.ocr exDoc.labels "now").1 :=
  ((build_atomic exDb ⟨[], [], []⟩ "v" 0 "now" "err").2.2 exDoc rfl).2.1

/- ===================== claim C7 ===================== -/

/-- C7: the GET handler is cache-aside: a present cache entry is returned
directly with the builder never invoked; on a miss the builder runs exactly
once and the re-read cache value (nothing when no analysis exists, in which
case the cache is untouched) is returned; and when an analysis exists, an
immediate second GET for the same key is a pure cache hit that returns the
built snapshot without another rebuild. -/
theorem cacheAside_read (db : DurableData) (r : Redis) (videoId : String)
    (t : Int) (now now2 : String) (hvid : videoId ≠ "") (ht : 0 ≤ t) :
    (∀ en, getLiveStateAtTime r videoId ((t : Int) : ℚ) = some en →
        GET db r videoId (some ((t : Int) : ℚ)) now = (some en, r, 0))
    ∧ (getLiveStateAtTime r videoId ((t : Int) : ℚ) = none →
        GET db r videoId (some ((t : Int) : ℚ)) now
          = (getLiveStateAtTime
               (buildLiveStateAtTime (.ok db) r videoId ((t : Int) : ℚ) now).2
               videoId ((t : Int) : ℚ),
             (buildLiveStateAtTime (.ok db) r videoId ((t : Int) : ℚ) now).2, 1))
    ∧ (getLiveStateAtTime r videoId ((t : Int) : ℚ) = none →
        latestAnalysis db videoId = none →
        GET db r videoId (some ((t : Int) : ℚ)) now = (none, r, 1))
    ∧ (∀ a, latestAnalysis db videoId = some a →
        GET db (buildLiveStateAtTime (.ok db) r videoId ((t : Int) : ℚ) now).2 videoId
            (some ((t : Int) : ℚ)) now2
          = (some ((buildSnapshot videoId t a.objects a.ocr a.labels now).1,
               zrangeWithScores
                 (buildLiveStateAtTime (.ok db) r videoId ((t : Int) : ℚ) now).2
                 (labelKey videoId t)),
             (buildLiveStateAtTime (.ok db) r videoId ((t : Int) : ℚ) now).2, 0)) := by
  have hfloor : (⌊((t : Int) : ℚ)⌋ : Int) = t := Int.floor_intCast t
  have hGET : ∀ (r0 : Redis) (nw : String),
      GET db r0 videoId (some ((t : Int) : ℚ)) nw
        = (match getLiveStateAtTime r0 videoId ((t : Int) : ℚ) with
           | some cached => (some cached, r0, 0)
           | none =>
             (getLiveStateAtTime
                (buildLiveStateAtTime (.ok db) r0 videoId ((t : Int) : ℚ) nw).2
                videoId ((t : Int) : ℚ),
              (buildLiveStateAtTime (.ok db) r0 videoId ((t : Int) : ℚ) nw).2, 1)) := by
    intro r0 nw
    simp only [GET, Option.getD_some, hfloor, if_pos ht]
  refine ⟨?_, ?_, ?_, ?_⟩
  · intro en hen
    rw [hGET r now, hen]
  · intro hnone
    rw [hGET r now, hnone]
  · intro hnone hla
    have hb : buildLiveStateAtTime (.ok db) r videoId ((t : Int) : ℚ) now = (.ok none, r) := by
      simp [buildLiveStateAtTime, hla]
    rw [hGET r now, hnone, hb, hnone]
  · intro a ha
    have hstate : buildLiveStateAtTime (.ok db) r videoId ((t : Int) : ℚ) now
        = (.ok (some ((buildSnapshot videoId t a.objects a.ocr a.labels now).1.score,
             (buildSnapshot videoId t a.objects a.ocr a.labels now).1.scoreboard)),
           exec r (buildBatch videoId t
             (buildSnapshot videoId t a.objects a.ocr a.labels now).1
             (buildSnapshot videoId t a.objects a.ocr a.labels now).2)) := by
      simp only [buildLiveStateAtTime, hfloor, ha]
    have hx := exec_buildBatch videoId t
      (buildSnapshot videoId t a.objects a.ocr a.labels now).1
      (buildSnapshot videoId t a.objects a.ocr a.labels now).2 r
    have hcache : hget (buildLiveStateAtTime (.ok db) r videoId ((t : Int) : ℚ) now).2
        (key videoId t) = some (buildSnapshot videoId t a.objects a.ocr a.labels now).1 := by
      rw [hstate]
      exact hx.1
    have hvid2 : (buildSnapshot videoId t a.objects a.ocr a.labels now).1.videoId
        = videoId := rfl
    have hread : getLiveStateAtTime
        (buildLiveStateAtTime (.ok db) r videoId ((t : Int) : ℚ) now).2 videoId
        ((t : Int) : ℚ)
        = some ((buildSnapshot videoId t a.objects a.ocr a.labels now).1,
            zrangeWithScores (buildLiveStateAtTime (.ok db) r videoId ((t : Int) : ℚ)
              now).2 (labelKey videoId t)) := by
      simp only [getLiveStateAtTime, hfloor, hcache]
      rw [if_neg (by rw [hvid2]; exact hvid)]
    rw [hGET (buildLiveStateAtTime (.ok db) r videoId ((t : Int) : ℚ) now).2 now2, hread]

/-- Witness for C7: with no analysis and an empty cache, a GET performs one
build, returns nothing, and leaves the cache empty. -/
theorem cacheAside_read_witness :
    GET ⟨[]⟩ ⟨[], [], []⟩ "v" (some ((0 : Int) : ℚ)) "now" = (none, ⟨[], [], []⟩, 1) :=
  ((cacheAside_read ⟨[]⟩ ⟨[], [], []⟩ "v" 0 "now" "n2" (by decide) (by decide)).2.2.1
    rfl rfl)

/- ===================== claim C9 ===================== -/

/-- Counterexample for C9: two successive builds over identical durable rows
but different clock readings do not produce byte-identical snapshots — the
lastUpdated field records the build time. -/
theorem build_idempotent_counterexample :
    buildSnapshot "v" 0 [] [] [] "2024-01-01T00:00:00.000Z"
      ≠ buildSnapshot "v" 0 [] [] [] "2024-01-01T00:00:01.000Z" := by
  intro h
  have h2 := congrArg (fun p => p.1.lastUpdated) h
  simp only [buildSnapshot] at h2
  exact absurd h2 (by decide)

/-- C9 (amended): the snapshot builder is a deterministic function of the
durable rows and the build clock: two builds from the same durable data agree
on every stored field and on the ranked label list, except lastUpdated, which
carries the build time; when the two clock readings coincide the snapshots
are byte-identical. -/
theorem build_deterministic (videoId : String) (t : Int)
    (objects ocr labels : List Ev) (now1 now2 : String) :
    ((buildSnapshot videoId t objects ocr labels now1).1.videoId
      = (buildSnapshot videoId t objects ocr labels now2).1.videoId)
    ∧ ((buildSnapshot videoId t objects ocr labels now1).1.t
      = (buildSnapshot videoId t objects ocr labels now2).1.t)
    ∧ ((buildSnapshot videoId t objects ocr labels now1).1.playerCount
      = (buildSnapshot videoId t objects ocr labels now2).1.playerCount)
    ∧ ((buildSnapshot videoId t objects ocr labels now1).1.scoreboard
      = (buildSnapshot videoId t objects ocr labels now2).1.scoreboard)
    ∧ ((buildSnapshot videoId t objects ocr labels now1).1.score
      = (buildSnapshot videoId t objects ocr labels now2).1.score)
    ∧ ((buildSnapshot videoId t objects ocr labels now1).2
      = (buildSnapshot videoId t objects ocr labels now2).2)
    ∧ ((buildSnapshot videoId t objects ocr labels now1).1.lastUpdated = now1)
    ∧ (now1 = now2 →
        buildSnapshot videoId t objects ocr labels now1
          = buildSnapshot videoId t objects ocr labels now2) := by
  exact ⟨rfl, rfl, rfl, rfl, rfl, rfl, rfl, fun h => by rw [h]⟩

/-- Witness for C9: with equal clock readings the two builds coincide. -/
theorem build_deterministic_witness :
    buildSnapshot "v" 0 [] [] [] "T" = buildSnapshot "v" 0 [] [] [] "T" :=
  (build_deterministic "v" 0 [] [] [] "T" "T").2.2.2.2.2.2.2 rfl

end Live
